import Mathlib

/-!
Shallow embedding of `src/bott.py` (a command-line contact manager):
validated fields (Name, Phone, Birthday), Record, AddressBook, the
birthday-window query, a persistence codec, and the `add_contact`
command-layer handler, together with proofs checking the specification's
claims against this embedding.
-/

namespace Bott

/-- Decimal-digit ranges of the Unicode Nd category (code-point intervals).
This is what CPython's regex `\d` matches on `str` patterns (the pattern in
`Phone._validate` is `re.fullmatch(r"\d{10}", value)`, compiled without
`re.ASCII`), and what `int()` accepts as digits. -/
def ndRanges : List (Nat × Nat) :=
  [(0x30, 0x39), (0x660, 0x669), (0x6F0, 0x6F9), (0x7C0, 0x7C9), (0x966, 0x96F),
   (0x9E6, 0x9EF), (0xA66, 0xA6F), (0xAE6, 0xAEF), (0xB66, 0xB6F), (0xBE6, 0xBEF),
   (0xC66, 0xC6F), (0xCE6, 0xCEF), (0xD66, 0xD6F), (0xDE6, 0xDEF), (0xE50, 0xE59),
   (0xED0, 0xED9), (0xF20, 0xF29), (0x1040, 0x1049), (0x1090, 0x1099), (0x17E0, 0x17E9),
   (0x1810, 0x1819), (0x1946, 0x194F), (0x19D0, 0x19D9), (0x1A80, 0x1A89), (0x1A90, 0x1A99),
   (0x1B50, 0x1B59), (0x1BB0, 0x1BB9), (0x1C40, 0x1C49), (0x1C50, 0x1C59), (0xA620, 0xA629),
   (0xA8D0, 0xA8D9), (0xA900, 0xA909), (0xA9D0, 0xA9D9), (0xA9F0, 0xA9F9), (0xAA50, 0xAA59),
   (0xABF0, 0xABF9), (0xFF10, 0xFF19), (0x104A0, 0x104A9), (0x10D30, 0x10D39), (0x11066, 0x1106F),
   (0x110F0, 0x110F9), (0x11136, 0x1113F), (0x111D0, 0x111D9), (0x112F0, 0x112F9), (0x11450, 0x11459),
   (0x114D0, 0x114D9), (0x11650, 0x11659), (0x116C0, 0x116C9), (0x11730, 0x11739), (0x118E0, 0x118E9),
   (0x11950, 0x11959), (0x11C50, 0x11C59), (0x11D50, 0x11D59), (0x11DA0, 0x11DA9), (0x16A60, 0x16A69),
   (0x16AC0, 0x16AC9), (0x16B50, 0x16B59), (0x1D7CE, 0x1D7FF), (0x1E140, 0x1E149), (0x1E2F0, 0x1E2F9),
   (0x1E950, 0x1E959), (0x1FBF0, 0x1FBF9)]

/-- Character matched by Python's regex `\d` on a `str` (any Unicode decimal digit). -/
def isPyDigit (c : Char) : Bool :=
  ndRanges.any (fun p => decide (p.1 ≤ c.toNat) && decide (c.toNat ≤ p.2))

/-- Numeric value of a Unicode decimal digit, as `int()` computes it
(offset of the code point inside its Nd run). -/
def pyDigitVal (c : Char) : Nat :=
  ((ndRanges.find? (fun p => decide (p.1 ≤ c.toNat) && decide (c.toNat ≤ p.2))).map
    (fun p => c.toNat - p.1)).getD 0

/-- ASCII decimal digit 0-9. -/
def asciiDigit (c : Char) : Bool :=
  decide (48 ≤ c.toNat) && decide (c.toNat ≤ 57)

/-- ASCII digit 1-9 (the regex class `[1-9]`, which is ASCII-literal). -/
def asciiOneNine (c : Char) : Bool :=
  decide (49 ≤ c.toNat) && decide (c.toNat ≤ 57)

/-- Value `int()` assigns to a list of digit characters. -/
def pyIntOfDigits (l : List Char) : Nat :=
  l.foldl (fun a c => 10 * a + pyDigitVal c) 0

/-- Error kinds of the core, following the spec's taxonomy by condition
(`ValidationError` for field-format failures, `NotFoundError` for missing
phone entries / book keys, `dateError` for `datetime.replace` failures on a
day that does not exist in the target year). In the Python source all of
these are `ValueError` / `KeyError` with distinct messages. -/
inductive PyErr where
  | validationError : PyErr
  | notFoundError : PyErr
  | dateError : PyErr
deriving DecidableEq

/-- Validation test of `Phone._validate`: `re.fullmatch(r"\d{10}", value)`,
i.e. exactly ten Unicode decimal digits. -/
def phone_validate (s : String) : Bool :=
  decide (s.data.length = 10) && s.data.all isPyDigit

/-- Constructor `Phone(value)`: raises `ValueError` unless the ten-digit test
passes, otherwise stores `value` unchanged. -/
def mkPhone (s : String) : Except PyErr String :=
  if phone_validate s then .ok s else .error .validationError

/-- Day field of CPython's `_strptime` for `%d`: the ordered regex
alternation `3[01]|[12]\d|0[1-9]|[1-9]` (the `\d` is any Unicode digit, the
bracket classes are ASCII), followed by the numeric value `int()` extracts.
The alternation is deterministic: the three two-character branches have
disjoint first characters, and the one-character branch can only lead to an
overall match when the following character is not a digit (the format string
continues with a literal dot), so first-match evaluation equals full
backtracking. -/
def matchDay : List Char → Option (Nat × List Char)
  | c1 :: c2 :: rest =>
    if (c1 = '3' && (c2 = '0' || c2 = '1'))
        || ((c1 = '1' || c1 = '2') && isPyDigit c2)
        || (c1 = '0' && asciiOneNine c2) then
      some (pyIntOfDigits [c1, c2], rest)
    else if asciiOneNine c1 then
      some (pyIntOfDigits [c1], c2 :: rest)
    else
      none
  | [c1] => if asciiOneNine c1 then some (pyIntOfDigits [c1], []) else none
  | [] => none

/-- Month field of CPython's `_strptime` for `%m`: the regex alternation
`1[0-2]|0[1-9]|[1-9]` (all ASCII classes), deterministic for the same reason
as `matchDay`. -/
def matchMonth : List Char → Option (Nat × List Char)
  | c1 :: c2 :: rest =>
    if (c1 = '1' && (c2 = '0' || c2 = '1' || c2 = '2'))
        || (c1 = '0' && asciiOneNine c2) then
      some (pyIntOfDigits [c1, c2], rest)
    else if asciiOneNine c1 then
      some (pyIntOfDigits [c1], c2 :: rest)
    else
      none
  | [c1] => if asciiOneNine c1 then some (pyIntOfDigits [c1], []) else none
  | [] => none

/-- Year field of CPython's `_strptime` for `%Y` at the end of the format:
exactly four `\d` digits which must exhaust the input (`strptime` raises on
unconverted trailing data). -/
def matchYear : List Char → Option Nat
  | [y1, y2, y3, y4] =>
    if isPyDigit y1 && isPyDigit y2 && isPyDigit y3 && isPyDigit y4 then
      some (pyIntOfDigits [y1, y2, y3, y4])
    else
      none
  | _ => none

/-- Field extraction of `datetime.strptime(s, "%d.%m.%Y")`: day, literal dot,
month, literal dot, four-digit year, end of string. Returns `(d, m, y)`. -/
def parseDMY (l : List Char) : Option (Nat × Nat × Nat) :=
  match matchDay l with
  | none => none
  | some (d, r1) =>
    match r1 with
    | '.' :: r2 =>
      match matchMonth r2 with
      | none => none
      | some (m, r3) =>
        match r3 with
        | '.' :: r4 =>
          match matchYear r4 with
          | none => none
          | some y => some (d, m, y)
        | _ => none
    | _ => none

/-- Gregorian leap-year test as in Python's `calendar.isleap` / `datetime`. -/
def isLeap (y : Nat) : Bool :=
  decide (y % 4 = 0) && (decide (y % 100 ≠ 0) || decide (y % 400 = 0))

/-- Length of a month as `datetime` checks it. Months outside 1..12 get 0. -/
def daysInMonth (y m : Nat) : Nat :=
  match m with
  | 1 => 31
  | 2 => if isLeap y then 29 else 28
  | 3 => 31
  | 4 => 30
  | 5 => 31
  | 6 => 30
  | 7 => 31
  | 8 => 31
  | 9 => 30
  | 10 => 31
  | 11 => 30
  | 12 => 31
  | _ => 0

/-- Validity test of the `datetime(year, month, day)` constructor (also run by
`datetime.replace`): year in `MINYEAR..MAXYEAR`, month in 1..12, day in range
for the month. -/
def validDate (y m d : Nat) : Bool :=
  decide (1 ≤ y) && decide (y ≤ 9999) && decide (1 ≤ m) && decide (m ≤ 12)
    && decide (1 ≤ d) && decide (d ≤ daysInMonth y m)

/-- Validation test of `Birthday.validate_birthday`:
`datetime.strptime(value, '%d.%m.%Y')` succeeds, i.e. the string matches the
strptime field pattern and names a real calendar date. -/
def validate_birthday (s : String) : Bool :=
  match parseDMY s.data with
  | some (d, m, y) => validDate y m d
  | none => false

/-- Constructor `Birthday(value)`: raises `ValueError` unless
`validate_birthday` passes, otherwise stores the raw string. -/
def mkBirthday (s : String) : Except PyErr String :=
  if validate_birthday s then .ok s else .error .validationError

/-- Whitespace stripped by Python's `str.strip()` (ASCII whitespace; the
exotic Unicode space characters are irrelevant to every claim). -/
def isPySpace (c : Char) : Bool :=
  c = ' ' || c = '\t' || c = '\n' || c = '\r' || c = '\x0b' || c = '\x0c'

/-- Python's `value.strip()`: drop leading and trailing whitespace. -/
def pyStrip (s : String) : String :=
  ⟨((s.data.dropWhile isPySpace).reverse.dropWhile isPySpace).reverse⟩

/-- Constructor `Name(value)`: raises `ValueError` when the stripped string is
empty, otherwise stores the stripped string. -/
def mkName (s : String) : Except PyErr String :=
  if pyStrip s = "" then .error .validationError else .ok (pyStrip s)

/-- One contact, as the Python `Record` holds it: the `Name.value` string
(already stripped), the list of `Phone.value` strings in order, and the
optional `Birthday.value` string. -/
structure Record where
  name : String
  phones : List String
  birthday : Option String
deriving DecidableEq

/-- Record construction `Record(Name(name))` as `add_contact` performs it:
no phones, no birthday. `name` is the already-validated `Name.value`. -/
def newRecord (name : String) : Record :=
  ⟨name, [], none⟩

/-- Method `Record.add_phone`: validate via `Phone`, append on success; on
failure the `ValueError` propagates and the record is untouched. -/
def add_phone (r : Record) (p : String) : Record × Option PyErr :=
  if phone_validate p then ({ r with phones := r.phones ++ [p] }, none)
  else (r, some .validationError)

/-- Method `Record.remove_phone`: keep exactly the phones whose value differs
from the argument (no validation, no error when absent). -/
def remove_phone (r : Record) (p : String) : Record :=
  { r with phones := r.phones.filter (fun q => decide (q ≠ p)) }

/-- Loop body of `Record.edit_phone` over the phone list: at the first entry
equal to `old`, construct `Phone(new)` and replace it in place (a failed
construction raises before any assignment); when no entry matches, raise the
not-found `ValueError`. -/
def edit_phone_list : List String → String → String → List String × Option PyErr
  | [], _, _ => ([], some .notFoundError)
  | p :: rest, old, new =>
    if p = old then
      if phone_validate new then (new :: rest, none)
      else (p :: rest, some .validationError)
    else
      let r := edit_phone_list rest old new
      (p :: r.1, r.2)

/-- Method `Record.edit_phone`. -/
def edit_phone (r : Record) (old new : String) : Record × Option PyErr :=
  let res := edit_phone_list r.phones old new
  ({ r with phones := res.1 }, res.2)

/-- Method `Record.add_birthday`: validate via `Birthday`, set/overwrite. -/
def add_birthday (r : Record) (b : String) : Record × Option PyErr :=
  if validate_birthday b then ({ r with birthday := some b }, none)
  else (r, some .validationError)

/-- Days before January 1 of year `y` counted from the proleptic-Gregorian
epoch, as in Python's `date.toordinal` (ordinal of 0001-01-01 is 1). -/
def daysBeforeYear (y : Nat) : Nat :=
  365 * (y - 1) + (y - 1) / 4 - (y - 1) / 100 + (y - 1) / 400

/-- Days of year `y` that precede month `m` (cumulative month lengths). -/
def daysBeforeMonth (y m : Nat) : Nat :=
  match m with
  | 1 => 0
  | 2 => 31
  | 3 => 59 + (if isLeap y then 1 else 0)
  | 4 => 90 + (if isLeap y then 1 else 0)
  | 5 => 120 + (if isLeap y then 1 else 0)
  | 6 => 151 + (if isLeap y then 1 else 0)
  | 7 => 181 + (if isLeap y then 1 else 0)
  | 8 => 212 + (if isLeap y then 1 else 0)
  | 9 => 243 + (if isLeap y then 1 else 0)
  | 10 => 273 + (if isLeap y then 1 else 0)
  | 11 => 304 + (if isLeap y then 1 else 0)
  | 12 => 334 + (if isLeap y then 1 else 0)
  | _ => 0

/-- Python's `date.toordinal()` for the date `(y, m, d)`. -/
def toOrdinal (y m d : Nat) : Nat :=
  daysBeforeYear y + daysBeforeMonth y m + d

/-- Value of `datetime.now()`: a calendar date plus the time of day, the
latter kept as elapsed microseconds since midnight (`timedelta` resolution). -/
structure PyDateTime where
  year : Nat
  month : Nat
  day : Nat
  usec : Nat
deriving DecidableEq

/-- Microseconds in a day, the unit in which `timedelta` normalizes. -/
def microsPerDay : Nat := 86400000000

/-- Ordinal of the calendar-date part of a `datetime`. -/
def nowOrd (t : PyDateTime) : Nat :=
  toOrdinal t.year t.month t.day

/-- Python comparison `bday < today` where `bday` is the midnight `datetime`
with ordinal `o` and `today` is `t`: lexicographic on (date, time of day). -/
def bdayBeforeNow (o : Nat) (t : PyDateTime) : Bool :=
  decide (o < nowOrd t) || (decide (o = nowOrd t) && decide (0 < t.usec))

/-- Python's `(bday - today).days` where `bday` is the midnight `datetime`
with ordinal `o`: the `timedelta` day count is a floor division of the signed
microsecond difference. -/
def tdDays (o : Nat) (t : PyDateTime) : Int :=
  (((o : Int) - (nowOrd t : Int)) * (microsPerDay : Int) - (t.usec : Int)).fdiv (microsPerDay : Int)

/-- Shared birthday-distance computation of `Record.days_to_birthday` and
`AddressBook.upcoming_birthdays` (the two code paths are textually the same):
re-parse the stored string with `strptime` (raises on a malformed string),
move the parsed date into the current year with `.replace(year=today.year)`
(raises when that day does not exist in the target year), advance to the next
year when the result compares before `today`, and return the `timedelta` day
count. -/
def next_bday_diff (bs : String) (t : PyDateTime) : Except PyErr Int :=
  match parseDMY bs.data with
  | none => .error .validationError
  | some (d, m, y) =>
    if validDate y m d then
      if validDate t.year m d then
        if bdayBeforeNow (toOrdinal t.year m d) t then
          if validDate (t.year + 1) m d then .ok (tdDays (toOrdinal (t.year + 1) m d) t)
          else .error .dateError
        else .ok (tdDays (toOrdinal t.year m d) t)
      else .error .dateError
    else .error .validationError

/-- Method `Record.days_to_birthday` with `datetime.now()` made an explicit
argument: `ok none` is the `return None` taken when no birthday is set,
`ok (some k)` the computed day count, `error` a raised exception. -/
def days_to_birthday (r : Record) (t : PyDateTime) : Except PyErr (Option Int) :=
  match r.birthday with
  | none => .ok none
  | some bs =>
    match next_bday_diff bs t with
    | .error e => .error e
    | .ok k => .ok (some k)

/-- AddressBook contents: the underlying `dict` as an insertion-ordered
association list from the name key to the record. -/
abbrev Book := List (String × Record)

/-- Lookup `self.data.get(key)` / `key in self.data` on the ordered dict. -/
def lookupKey : Book → String → Option Record
  | [], _ => none
  | (k, r) :: rest, key => if k = key then some r else lookupKey rest key

/-- Assignment `self.data[key] = r` on the ordered dict: an existing key keeps
its position and gets the new value, a fresh key is appended at the end. -/
def setKey : Book → String → Record → Book
  | [], key, r => [(key, r)]
  | (k, v) :: rest, key, r =>
    if k = key then (k, r) :: rest else (k, v) :: setKey rest key r

/-- Deletion `del self.data[key]`: remove the entry carrying the key. -/
def eraseKey : Book → String → Book
  | [], _ => []
  | (k, v) :: rest, key => if k = key then rest else (k, v) :: eraseKey rest key

/-- Method `AddressBook.add_record`: store under `record.name.value`. -/
def add_record (book : Book) (r : Record) : Book :=
  setKey book r.name r

/-- Method `AddressBook.find`: `self.data.get(name.strip())`. -/
def find (book : Book) (name : String) : Option Record :=
  lookupKey book (pyStrip name)

/-- Method `AddressBook.delete`: raise `KeyError` when the untrimmed name is
not a key, otherwise remove the entry. -/
def delete (book : Book) (name : String) : Book × Option PyErr :=
  match lookupKey book name with
  | some _ => (eraseKey book name, none)
  | none => (book, some .notFoundError)

/-- Loop of `AddressBook.upcoming_birthdays` over the dict values in
insertion order: skip records without a birthday, compute the shared
birthday distance (any raised exception aborts the whole call), and collect
the records with `0 <= (bday - today).days < days`. -/
def upcomingGo (t : PyDateTime) (w : Nat) : List Record → Except PyErr (List Record)
  | [] => .ok []
  | r :: rest =>
    match r.birthday with
    | none => upcomingGo t w rest
    | some bs =>
      match next_bday_diff bs t with
      | .error e => .error e
      | .ok dd =>
        match upcomingGo t w rest with
        | .error e => .error e
        | .ok l => .ok (if 0 ≤ dd ∧ dd < (w : Int) then r :: l else l)

/-- Method `AddressBook.upcoming_birthdays(days)` with `datetime.now()` made
an explicit argument. -/
def upcoming_birthdays (book : Book) (w : Nat) (t : PyDateTime) : Except PyErr (List Record) :=
  upcomingGo t w (book.map Prod.snd)

/-- Call `AddressBook.upcoming_birthdays()` with the declared default
argument `days=7` (this is how `show_birthdays` reaches it). -/
def upcoming_birthdays_default (book : Book) (t : PyDateTime) : Except PyErr (List Record) :=
  upcoming_birthdays book 7 t

/-- Modelled from the spec: `save_data`/`load_data` delegate the byte format
to `pickle.dump`/`pickle.load`, which are outside this repository; the spec's
contract is only that the adapter "must round-trip every field exactly
(Name/Phone/Birthday string values, phone order, birthday presence/absence)".
The pickle byte stream is modelled as a flat number stream; a string is
serialized as its length followed by its character code points. -/
def encString (s : String) : List Nat :=
  s.data.length :: s.data.map Char.toNat

/-- Deserialize one length-prefixed string, returning it with the remainder
of the stream. -/
def decString : List Nat → Option (String × List Nat)
  | [] => none
  | n :: rest =>
    if n ≤ rest.length then some (⟨(rest.take n).map Char.ofNat⟩, rest.drop n)
    else none

/-- Serialize the optional birthday: a presence tag, then the string. -/
def encOptString : Option String → List Nat
  | none => [0]
  | some s => 1 :: encString s

/-- Deserialize the optional birthday. -/
def decOptString : List Nat → Option (Option String × List Nat)
  | 0 :: rest => some (none, rest)
  | 1 :: rest => (decString rest).map (fun p => (some p.1, p.2))
  | _ => none

/-- Serialize the phone list: length, then each phone string in order. -/
def encStrings (l : List String) : List Nat :=
  l.length :: l.foldr (fun s acc => encString s ++ acc) []

/-- Deserialize `n` consecutive strings. -/
def decStringsAux : Nat → List Nat → Option (List String × List Nat)
  | 0, rest => some ([], rest)
  | n + 1, rest =>
    match decString rest with
    | none => none
    | some (s, rest1) =>
      match decStringsAux n rest1 with
      | none => none
      | some (l, rest2) => some (s :: l, rest2)

/-- Deserialize a length-prefixed string list. -/
def decStrings : List Nat → Option (List String × List Nat)
  | [] => none
  | n :: rest => decStringsAux n rest

/-- Serialize one `Record`: name, phone list, optional birthday. -/
def encRecord (r : Record) : List Nat :=
  encString r.name ++ encStrings r.phones ++ encOptString r.birthday

/-- Deserialize one `Record`. -/
def decRecord (l : List Nat) : Option (Record × List Nat) :=
  match decString l with
  | none => none
  | some (name, l1) =>
    match decStrings l1 with
    | none => none
    | some (phones, l2) =>
      match decOptString l2 with
      | none => none
      | some (birthday, l3) => some (⟨name, phones, birthday⟩, l3)

/-- Serialize one dict entry: key, then record. -/
def encEntry (e : String × Record) : List Nat :=
  encString e.1 ++ encRecord e.2

/-- Deserialize one dict entry. -/
def decEntry (l : List Nat) : Option ((String × Record) × List Nat) :=
  match decString l with
  | none => none
  | some (key, l1) =>
    match decRecord l1 with
    | none => none
    | some (r, l2) => some ((key, r), l2)

/-- Deserialize `n` consecutive dict entries. -/
def decEntriesAux : Nat → List Nat → Option (Book × List Nat)
  | 0, rest => some ([], rest)
  | n + 1, rest =>
    match decEntry rest with
    | none => none
    | some (e, rest1) =>
      match decEntriesAux n rest1 with
      | none => none
      | some (b, rest2) => some (e :: b, rest2)

/-- Function `save_data(book)`: the serialized AddressBook, entries in
insertion order. -/
def save_data (book : Book) : List Nat :=
  book.length :: book.foldr (fun e acc => encEntry e ++ acc) []

/-- Function `load_data` applied to an existing serialized stream: rebuild
the AddressBook; a malformed stream is a deserialization failure. -/
def load_data (l : List Nat) : Option Book :=
  match l with
  | [] => none
  | n :: rest =>
    match decEntriesAux n rest with
    | some (b, []) => some b
    | _ => none

/-- Message `add_contact` returns when fewer than two arguments arrive. -/
def err_args_msg : String := "Error: Provide both name and phone number."

/-- Display string `input_error` builds from the `ValueError` that
`Phone.__init__` raises. -/
def err_phone_msg : String := "Error: Phone number must be exactly 10 digits."

/-- Display string `input_error` builds from the `ValueError` that
`Name.__init__` raises. -/
def err_name_msg : String := "Error: Name cannot be empty."

/-- Success message of `add_contact` (interpolates the raw name argument). -/
def added_msg (name : String) : String :=
  "Contact '" ++ name ++ "' added or updated."

/-- Handler `add_contact(args, book)` including its `input_error` wrapper:
returns the display string together with the book as left behind (mutations
performed before a raised exception persist). When `find` misses, the code
first constructs and inserts a fresh empty record and only then validates the
phone via `record.add_phone`. -/
def add_contact (args : List String) (book : Book) : String × Book :=
  match args with
  | name :: phone :: _ =>
    (match find book name with
     | some r =>
       match add_phone r phone with
       | (r1, none) => (added_msg name, setKey book (pyStrip name) r1)
       | (_, some _) => (err_phone_msg, book)
     | none =>
       if pyStrip name = "" then (err_name_msg, book)
       else
         let book1 := add_record book (newRecord (pyStrip name))
         match add_phone (newRecord (pyStrip name)) phone with
         | (r1, none) => (added_msg name, setKey book1 (pyStrip name) r1)
         | (_, some _) => (err_phone_msg, book1))
  | _ => (err_args_msg, book)

/-- Spec-side predicate (claim C4's wording): exactly ten ASCII decimal
digits. -/
def asciiDigits10 (s : String) : Bool :=
  decide (s.data.length = 10) && s.data.all asciiDigit

/-- Numeric value of a list of ASCII digit characters. -/
def intOfAscii (l : List Char) : Nat :=
  l.foldl (fun a c => 10 * a + (c.toNat - 48)) 0

/-- Spec-side predicate (claim C3's wording): strict `DD.MM.YYYY` — a
zero-padded two-digit day and month, a four-digit year, dots as separators,
naming a real calendar date. -/
def strictDMY (s : String) : Bool :=
  match s.data with
  | [d1, d2, '.', m1, m2, '.', y1, y2, y3, y4] =>
    asciiDigit d1 && asciiDigit d2 && asciiDigit m1 && asciiDigit m2
      && asciiDigit y1 && asciiDigit y2 && asciiDigit y3 && asciiDigit y4
      && validDate (intOfAscii [y1, y2, y3, y4]) (intOfAscii [m1, m2]) (intOfAscii [d1, d2])
  | _ => false

/-- Day group of the format `Birthday` actually accepts (ASCII inputs): one
or two digit characters with value 1..31 — zero-padding optional, a bare
"0" or "00" excluded. -/
def isDayGroup (l : List Char) : Bool :=
  l.all asciiDigit && (decide (l.length = 1) || decide (l.length = 2))
    && decide (1 ≤ intOfAscii l) && decide (intOfAscii l ≤ 31)

/-- Month group of the format `Birthday` actually accepts (ASCII inputs):
one or two digit characters with value 1..12. -/
def isMonthGroup (l : List Char) : Bool :=
  l.all asciiDigit && (decide (l.length = 1) || decide (l.length = 2))
    && decide (1 ≤ intOfAscii l) && decide (intOfAscii l ≤ 12)

/-- Year group: exactly four digit characters. -/
def isYearGroup (l : List Char) : Bool :=
  l.all asciiDigit && decide (l.length = 4)

/-- Declarative acceptance condition of `Birthday` on ASCII strings: a day
group, a dot, a month group, a dot, a four-digit year, spelling a real
calendar date (year at least 1). -/
def lenientDMY (s : String) : Prop :=
  ∃ ds ms ys : List Char,
    s.data = ds ++ '.' :: (ms ++ '.' :: ys)
      ∧ isDayGroup ds = true ∧ isMonthGroup ms = true ∧ isYearGroup ys = true
      ∧ validDate (intOfAscii ys) (intOfAscii ms) (intOfAscii ds) = true

/-- Spec-side filter predicate of the upcoming-birthday query: the record
has a birthday whose day count, as `days_to_birthday` computes it, lies in
the half-open window `[0, w)`. -/
def inWindow (t : PyDateTime) (w : Nat) (r : Record) : Bool :=
  match days_to_birthday r t with
  | .ok (some k) => decide (0 ≤ k) && decide (k < (w : Int))
  | _ => false

/-- Record invariant of claim C10: every stored phone passes the `Phone`
validator. -/
def phonesValid (r : Record) : Prop :=
  ∀ p ∈ r.phones, phone_validate p = true

/-- Characters are determined by their code point. -/
theorem char_eq_of_toNat {c d : Char} (h : c.toNat = d.toNat) : c = d :=
  Char.eq_of_val_eq (UInt32.ext h)

/-- First-occurrence behavior of the `edit_phone` loop when `old` occurs. -/
theorem edit_phone_list_found (old new : String) :
    ∀ (l1 l2 : List String), old ∉ l1 →
      edit_phone_list (l1 ++ old :: l2) old new =
        if phone_validate new then (l1 ++ new :: l2, none)
        else (l1 ++ old :: l2, some .validationError) := by
  intro l1
  induction l1 with
  | nil =>
    intro l2 _
    by_cases hv : phone_validate new = true <;>
      simp [edit_phone_list, hv]
  | cons p rest ih =>
    intro l2 h
    have hp : p ≠ old := by
      intro he; exact h (by simp [he])
    have hrest : old ∉ rest := by
      intro hm; exact h (by simp [hm])
    have hih := ih l2 hrest
    by_cases hv : phone_validate new = true <;>
      simp [edit_phone_list, hp, hv, List.append_eq] at hih ⊢ <;>
      simp [hih]

/-- The `edit_phone` loop reaches the not-found raise when `old` is absent. -/
theorem edit_phone_list_not_found (old new : String) :
    ∀ ps : List String, old ∉ ps →
      edit_phone_list ps old new = (ps, some .notFoundError) := by
  intro ps
  induction ps with
  | nil => intro _; rfl
  | cons p rest ih =>
    intro h
    have hp : p ≠ old := by intro he; exact h (by simp [he])
    have hrest : old ∉ rest := by intro hm; exact h (by simp [hm])
    have hih := ih hrest
    simp [edit_phone_list, hp, hih]

/-- Claim C5: `editPhone(old, new)` replaces the first phone equal to `old`
in place when `old` is present and `new` is a valid `Phone` (position
preserved, later duplicates untouched); it fails with `NotFoundError` when no
phone equals `old`, and with `ValidationError` when `new` is invalid; in both
failure cases the phone list is exactly unchanged. -/
theorem edit_phone_spec (r : Record) (old new : String) :
    (∀ l1 l2 : List String, r.phones = l1 ++ old :: l2 → old ∉ l1 →
        edit_phone r old new =
          if phone_validate new then ({ r with phones := l1 ++ new :: l2 }, none)
          else (r, some .validationError))
      ∧ (old ∉ r.phones → edit_phone r old new = (r, some .notFoundError)) := by
  constructor
  · intro l1 l2 hsplit hnot
    have h := edit_phone_list_found old new l1 l2 hnot
    rw [edit_phone, hsplit, h]
    by_cases hv : phone_validate new = true <;> simp [hv, ← hsplit]
  · intro hnot
    have h := edit_phone_list_not_found old new r.phones hnot
    rw [edit_phone, h]

/-- Witness for C5 at the spec's own example: phones
`["1111111111", "2222222222"]`, replace the first by `"3333333333"`. -/
theorem edit_phone_spec_witness :
    edit_phone ⟨"Bob", ["1111111111", "2222222222"], none⟩ "1111111111" "3333333333" =
      ({ name := "Bob", phones := ["3333333333", "2222222222"], birthday := none }, none)
      ∧ edit_phone ⟨"Bob", ["1111111111", "2222222222"], none⟩ "9999999999" "anything" =
          (⟨"Bob", ["1111111111", "2222222222"], none⟩, some .notFoundError) := by
  constructor
  · have h := (edit_phone_spec ⟨"Bob", ["1111111111", "2222222222"], none⟩ "1111111111" "3333333333").1
      [] ["2222222222"] rfl (by simp)
    rw [h]
    decide
  · exact (edit_phone_spec ⟨"Bob", ["1111111111", "2222222222"], none⟩ "9999999999" "anything").2
      (by decide)

/-- Overwriting a key makes it map to the new record. -/
theorem lookupKey_setKey_self (book : Book) (k : String) (r : Record) :
    lookupKey (setKey book k r) k = some r := by
  induction book with
  | nil => simp [setKey, lookupKey]
  | cons e rest ih =>
    obtain ⟨k0, v0⟩ := e
    by_cases hk : k0 = k <;> simp [setKey, lookupKey, hk, ih]

/-- Overwriting an existing key leaves the key sequence unchanged. -/
theorem setKey_map_fst (book : Book) (k : String) (r v : Record)
    (h : lookupKey book k = some v) :
    (setKey book k r).map Prod.fst = book.map Prod.fst := by
  induction book with
  | nil => simp [lookupKey] at h
  | cons e rest ih =>
    obtain ⟨k0, v0⟩ := e
    by_cases hk : k0 = k
    · simp [setKey, hk]
    · simp only [lookupKey, if_neg hk] at h
      simp [setKey, hk, ih h]

/-- Keys that never occur look up to `none`. -/
theorem lookupKey_eq_none_of_not_mem (book : Book) (k : String)
    (h : k ∉ book.map Prod.fst) : lookupKey book k = none := by
  induction book with
  | nil => rfl
  | cons e rest ih =>
    obtain ⟨k0, v0⟩ := e
    simp only [List.map_cons, List.mem_cons] at h
    push_neg at h
    have hne : ¬k0 = k := fun he => h.1 he.symm
    simp [lookupKey, hne, ih h.2]

/-- A successful lookup names a present key. -/
theorem mem_of_lookupKey_some (book : Book) (k : String) (r : Record)
    (h : lookupKey book k = some r) : k ∈ book.map Prod.fst := by
  induction book with
  | nil => simp [lookupKey] at h
  | cons e rest ih =>
    obtain ⟨k0, v0⟩ := e
    by_cases hk : k0 = k
    · simp [hk]
    · simp only [lookupKey, if_neg hk] at h
      simp [ih h]

/-- After deleting a key from a duplicate-free book, it looks up to `none`. -/
theorem lookupKey_eraseKey_self (book : Book) (k : String)
    (hnd : (book.map Prod.fst).Nodup) : lookupKey (eraseKey book k) k = none := by
  induction book with
  | nil => rfl
  | cons e rest ih =>
    obtain ⟨k0, v0⟩ := e
    simp only [List.map_cons, List.nodup_cons] at hnd
    by_cases hk : k0 = k
    · subst hk
      simp only [eraseKey, if_pos rfl]
      exact lookupKey_eq_none_of_not_mem rest k0 hnd.1
    · simp [eraseKey, lookupKey, hk, ih hnd.2]

/-- Claim C6: adding a record under an existing name replaces the mapped
record entirely (last-write-wins, no merge of phone lists), and the key keeps
its position (the key sequence is unchanged). -/
theorem add_record_overwrites (book : Book) (name : String) (rOld rNew : Record)
    (hold : lookupKey book name = some rOld) (hname : rNew.name = name) :
    lookupKey (add_record book rNew) name = some rNew
      ∧ (add_record book rNew).map Prod.fst = book.map Prod.fst := by
  constructor
  · rw [add_record, hname]
    exact lookupKey_setKey_self book name rNew
  · rw [add_record, hname]
    exact setKey_map_fst book name rNew rOld hold

/-- Witness for C6: overwriting the record stored under "Bob" forgets the
old phone list. -/
theorem add_record_overwrites_witness :
    lookupKey (add_record [("Bob", ⟨"Bob", ["1111111111"], none⟩)] ⟨"Bob", ["2222222222"], none⟩) "Bob"
        = some ⟨"Bob", ["2222222222"], none⟩
      ∧ (add_record [("Bob", ⟨"Bob", ["1111111111"], none⟩)] ⟨"Bob", ["2222222222"], none⟩).map Prod.fst
        = ["Bob"] :=
  add_record_overwrites [("Bob", ⟨"Bob", ["1111111111"], none⟩)] "Bob"
    ⟨"Bob", ["1111111111"], none⟩ ⟨"Bob", ["2222222222"], none⟩ (by decide) rfl

/-- Claim C7: `delete(name)` fails with `NotFoundError` and leaves the book
unchanged when the untrimmed name is not a key; when it is a key (of a book
whose keys are duplicate-free stripped names, as every book built through
`add_record` is), it removes the entry and a subsequent `find` misses. -/
theorem delete_spec (book : Book) (name : String) :
    (lookupKey book name = none → delete book name = (book, some .notFoundError))
      ∧ (∀ r, lookupKey book name = some r →
          (book.map Prod.fst).Nodup → (∀ k ∈ book.map Prod.fst, pyStrip k = k) →
          delete book name = (eraseKey book name, none)
            ∧ find (eraseKey book name) name = none) := by
  constructor
  · intro h
    rw [delete, h]
  · intro r h hnd hstrip
    constructor
    · rw [delete, h]
    · have hmem := mem_of_lookupKey_some book name r h
      have hs : pyStrip name = name := hstrip name hmem
      rw [find, hs]
      exact lookupKey_eraseKey_self book name hnd

/-- Witness for C7: both branches at a one-entry book. -/
theorem delete_spec_witness :
    delete [("Bob", ⟨"Bob", [], none⟩)] "Al" = ([("Bob", ⟨"Bob", [], none⟩)], some .notFoundError)
      ∧ (delete [("Bob", ⟨"Bob", [], none⟩)] "Bob" = ([], none)
          ∧ find (eraseKey [("Bob", ⟨"Bob", [], none⟩)] "Bob") "Bob" = none) := by
  constructor
  · exact (delete_spec [("Bob", ⟨"Bob", [], none⟩)] "Al").1 (by decide)
  · have h := (delete_spec [("Bob", ⟨"Bob", [], none⟩)] "Bob").2 ⟨"Bob", [], none⟩
      (by decide) (by decide) (by decide)
    exact ⟨h.1, h.2⟩

/-- Claim C9: when the name is new and the phone fails validation,
`add_contact` still inserts a fresh empty record before the validation error
is reported — the returned message is the phone error, yet the book now maps
the stripped name to an empty record, so a later `add_contact` for the same
name no longer creates a fresh record. -/
theorem add_contact_inserts_before_validation (book : Book) (name phone : String)
    (hmiss : lookupKey book (pyStrip name) = none)
    (hname : pyStrip name ≠ "")
    (hphone : phone_validate phone = false) :
    add_contact [name, phone] book
        = (err_phone_msg, add_record book (newRecord (pyStrip name)))
      ∧ find (add_record book (newRecord (pyStrip name))) name
        = some (newRecord (pyStrip name)) := by
  constructor
  · simp only [add_contact, find, hmiss, if_neg hname, add_phone, hphone,
      Bool.false_eq_true, if_neg (by simp : ¬False)]
  · rw [find, add_record, newRecord]
    exact lookupKey_setKey_self book (pyStrip name) (newRecord (pyStrip name))

/-- Witness for C9: adding "Bob" with the invalid phone "123" to the empty
book reports the phone error but leaves an empty record behind. -/
theorem add_contact_inserts_before_validation_witness :
    add_contact ["Bob", "123"] [] = (err_phone_msg, [("Bob", ⟨"Bob", [], none⟩)])
      ∧ find [("Bob", ⟨"Bob", [], none⟩)] "Bob" = some ⟨"Bob", [], none⟩ := by
  have h := add_contact_inserts_before_validation [] "Bob" "123" (by decide) (by decide) (by decide)
  exact h

/-- Entries of an edited phone list come from the original list or are the
validated replacement. -/
theorem mem_edit_phone_list (old new : String) :
    ∀ (ps : List String) (x : String), x ∈ (edit_phone_list ps old new).1 →
      x ∈ ps ∨ (x = new ∧ phone_validate new = true) := by
  intro ps
  induction ps with
  | nil => intro x hx; exact Or.inl hx
  | cons p rest ih =>
    intro x hx
    by_cases hp : p = old
    · by_cases hv : phone_validate new = true
      · simp only [edit_phone_list, if_pos hp, if_pos hv, List.mem_cons] at hx
        rcases hx with hx | hx
        · exact Or.inr ⟨hx, hv⟩
        · exact Or.inl (List.mem_cons_of_mem p hx)
      · simp only [edit_phone_list, if_pos hp, if_neg hv] at hx
        exact Or.inl hx
    · simp only [edit_phone_list, if_neg hp] at hx
      rcases List.mem_cons.mp hx with hx | hx
      · exact Or.inl (by simp [hx])
      · rcases ih x hx with h | h
        · exact Or.inl (List.mem_cons_of_mem p h)
        · exact Or.inr h

/-- Claim C10: every phone stored in a record reachable through the public
mutation operations passes the `Phone` validator — record construction
starts with no phones, `add_phone` and `edit_phone` insert only
constructor-validated values, and `remove_phone` only deletes entries. -/
theorem record_phones_invariant (nm : String) (r : Record) (p old new : String)
    (h : phonesValid r) :
    phonesValid (newRecord nm)
      ∧ phonesValid (add_phone r p).1
      ∧ phonesValid (remove_phone r p)
      ∧ phonesValid (edit_phone r old new).1 := by
  refine ⟨?_, ?_, ?_, ?_⟩
  · intro q hq
    simp [newRecord] at hq
  · intro q hq
    rw [add_phone] at hq
    by_cases hv : phone_validate p = true
    · simp only [if_pos hv] at hq
      simp only [List.mem_append, List.mem_singleton] at hq
      rcases hq with hq | hq
      · exact h q hq
      · rw [hq]; exact hv
    · simp only [if_neg hv] at hq
      exact h q hq
  · intro q hq
    rw [remove_phone] at hq
    simp only [List.mem_filter] at hq
    exact h q hq.1
  · intro q hq
    rw [edit_phone] at hq
    rcases mem_edit_phone_list old new r.phones q hq with hm | hm
    · exact h q hm
    · rw [hm.1]; exact hm.2

/-- Witness for C10 at a concrete valid record. -/
theorem record_phones_invariant_witness :
    phonesValid (newRecord "Al")
      ∧ phonesValid (add_phone ⟨"Bob", ["0123456789"], none⟩ "1111111111").1
      ∧ phonesValid (remove_phone ⟨"Bob", ["0123456789"], none⟩ "1111111111")
      ∧ phonesValid (edit_phone ⟨"Bob", ["0123456789"], none⟩ "0123456789" "2222222222").1 :=
  record_phones_invariant "Al" ⟨"Bob", ["0123456789"], none⟩ "1111111111" "0123456789" "2222222222"
    (by intro p hp; simp only [List.mem_singleton] at hp; rw [hp]; decide)

/-- Decoding inverts string encoding, leaving the stream remainder. -/
theorem decString_encString (s : String) (t : List Nat) :
    decString (encString s ++ t) = some (s, t) := by
  obtain ⟨d⟩ := s
  simp only [encString, decString, List.cons_append]
  have hlen : d.length ≤ (d.map Char.toNat ++ t).length := by
    simp
  have htake : (d.map Char.toNat ++ t).take d.length = d.map Char.toNat := by
    simp
  have hdrop : (d.map Char.toNat ++ t).drop d.length = t := by
    simp
  rw [if_pos hlen, htake, hdrop]
  simp [List.map_map, Function.comp_def, Char.ofNat_toNat]

/-- Decoding inverts optional-string encoding. -/
theorem decOptString_encOptString (o : Option String) (t : List Nat) :
    decOptString (encOptString o ++ t) = some (o, t) := by
  cases o with
  | none => rfl
  | some s =>
    simp only [encOptString, List.cons_append, decOptString, decString_encString]
    rfl

/-- Folding the string encoder associates with an arbitrary tail. -/
theorem foldr_encString_append (l : List String) (t : List Nat) :
    l.foldr (fun s acc => encString s ++ acc) [] ++ t
      = l.foldr (fun s acc => encString s ++ acc) t := by
  induction l with
  | nil => simp
  | cons s rest ih => simp [List.foldr_cons, List.append_assoc, ih]

/-- Decoding inverts the encoding of `n` consecutive strings. -/
theorem decStringsAux_enc (l : List String) (t : List Nat) :
    decStringsAux l.length (l.foldr (fun s acc => encString s ++ acc) t) = some (l, t) := by
  induction l with
  | nil => rfl
  | cons s rest ih =>
    simp only [List.length_cons, List.foldr_cons, decStringsAux, decString_encString, ih]

/-- Decoding inverts phone-list encoding. -/
theorem decStrings_encStrings (l : List String) (t : List Nat) :
    decStrings (encStrings l ++ t) = some (l, t) := by
  simp only [encStrings, List.cons_append, decStrings]
  rw [foldr_encString_append]
  exact decStringsAux_enc l t

/-- Decoding inverts record encoding. -/
theorem decRecord_encRecord (r : Record) (t : List Nat) :
    decRecord (encRecord r ++ t) = some (r, t) := by
  obtain ⟨name, phones, birthday⟩ := r
  simp only [encRecord, List.append_assoc, decRecord, decString_encString,
    decStrings_encStrings, decOptString_encOptString]

/-- Decoding inverts entry encoding. -/
theorem decEntry_encEntry (e : String × Record) (t : List Nat) :
    decEntry (encEntry e ++ t) = some (e, t) := by
  obtain ⟨k, r⟩ := e
  simp only [encEntry, List.append_assoc, decEntry, decString_encString, decRecord_encRecord]

/-- Decoding inverts the encoding of `n` consecutive entries. -/
theorem decEntriesAux_enc (b : Book) (t : List Nat) :
    decEntriesAux b.length (b.foldr (fun e acc => encEntry e ++ acc) t) = some (b, t) := by
  induction b with
  | nil => rfl
  | cons e rest ih =>
    simp only [List.length_cons, List.foldr_cons, decEntriesAux, decEntry_encEntry, ih]

/-- Claim C8: loading a saved AddressBook restores every observable field —
the same keys in the same order, each record's phone list with values and
order preserved, and each birthday's presence and value preserved (the
restored book is equal to the original). -/
theorem load_save_roundtrip (book : Book) :
    load_data (save_data book) = some book := by
  simp only [save_data, load_data, decEntriesAux_enc book []]

/-- ASCII digits sit in the first Nd range. -/
theorem isPyDigit_of_asciiDigit (c : Char) (h : asciiDigit c = true) : isPyDigit c = true := by
  simp only [asciiDigit, Bool.and_eq_true, decide_eq_true_eq] at h
  simp only [isPyDigit, ndRanges, List.any_cons, List.any_nil, Bool.and_eq_true,
    Bool.or_eq_true, decide_eq_true_eq]
  exact Or.inl ⟨h.1, h.2⟩

/-- Below code point 128, Python's `\d` is exactly the ASCII digits. -/
theorem isPyDigit_ascii_iff (c : Char) (h : c.toNat < 128) :
    isPyDigit c = true ↔ asciiDigit c = true := by
  constructor
  · intro hp
    simp [isPyDigit, ndRanges] at hp
    simp only [asciiDigit, Bool.and_eq_true, decide_eq_true_eq]
    omega
  · exact isPyDigit_of_asciiDigit c

/-- Claim C4 (amended): `Phone(s)` succeeds — storing `s` unchanged — exactly
when `s` is ten characters every one of which is a Unicode decimal digit
(Python's `\d`); in particular every string of ten ASCII digits is accepted,
and any other string fails with `ValidationError`. -/
theorem phone_spec (s : String) :
    (mkPhone s = .ok s ↔ (s.data.length = 10 ∧ ∀ c ∈ s.data, isPyDigit c = true))
      ∧ (asciiDigits10 s = true → mkPhone s = .ok s)
      ∧ (mkPhone s ≠ .ok s → mkPhone s = .error .validationError) := by
  refine ⟨?_, ?_, ?_⟩
  · rw [mkPhone]
    constructor
    · intro h
      split at h
      · next hv =>
        simp only [phone_validate, Bool.and_eq_true, decide_eq_true_eq, List.all_eq_true] at hv
        exact hv
      · exact absurd h (by simp)
    · intro h
      rw [if_pos (by simp only [phone_validate, Bool.and_eq_true, decide_eq_true_eq,
        List.all_eq_true]; exact h)]
  · intro h
    simp only [asciiDigits10, Bool.and_eq_true, decide_eq_true_eq, List.all_eq_true] at h
    rw [mkPhone, if_pos (by
      simp only [phone_validate, Bool.and_eq_true, decide_eq_true_eq, List.all_eq_true]
      exact ⟨h.1, fun c hc => isPyDigit_of_asciiDigit c (h.2 c hc)⟩)]
  · intro h
    by_cases hv : phone_validate s = true
    · rw [mkPhone, if_pos hv] at h
      exact absurd rfl h
    · rw [mkPhone, if_neg hv]

/-- Witness for C4: the theorem applied at a ten-ASCII-digit string. -/
theorem phone_spec_witness :
    mkPhone "0123456789" = .ok "0123456789" :=
  (phone_spec "0123456789").2.1 (by decide)

/-- Counterexample to C4 as stated: ten fullwidth digits (U+FF11) pass the
`Phone` validator although the string contains no ASCII digit at all, so
acceptance is not limited to ASCII-digit strings. -/
theorem phone_claim_ascii_counterexample :
    mkPhone "１１１１１１１１１１" = .ok "１１１１１１１１１１"
      ∧ asciiDigits10 "１１１１１１１１１１" = false := by
  constructor
  · rfl
  · decide

/-- Unfolded meaning of the leap-year test. -/
theorem isLeap_iff (y : Nat) :
    isLeap y = true ↔ (y % 4 = 0 ∧ (y % 100 ≠ 0 ∨ y % 400 = 0)) := by
  simp [isLeap]

set_option maxHeartbeats 1600000 in
/-- One year adds 365 or 366 days to the year-prefix count according to the
leap rule. -/
theorem daysBeforeYear_succ (y : Nat) (hy : 1 ≤ y) :
    daysBeforeYear (y + 1) = daysBeforeYear y + (if isLeap y then 366 else 365) := by
  by_cases hc : (y % 4 = 0 ∧ (y % 100 ≠ 0 ∨ y % 400 = 0))
  · rw [if_pos ((isLeap_iff y).mpr hc)]
    simp only [daysBeforeYear]
    omega
  · rw [if_neg (fun hh => hc ((isLeap_iff y).mp hh))]
    simp only [daysBeforeYear]
    push_neg at hc
    omega

set_option maxHeartbeats 1600000 in
/-- The day-of-year offset of a valid date lies within the year's length. -/
theorem dayOfYear_bounds (y m d : Nat) (h : validDate y m d = true) :
    1 ≤ daysBeforeMonth y m + d
      ∧ daysBeforeMonth y m + d ≤ (if isLeap y then 366 else 365) := by
  simp only [validDate, Bool.and_eq_true, decide_eq_true_eq] at h
  obtain ⟨⟨⟨⟨⟨h1, h2⟩, h3⟩, h4⟩, h5⟩, h6⟩ := h
  interval_cases m <;> cases hL : isLeap y <;>
    simp [daysBeforeMonth, daysInMonth, hL] at h6 ⊢ <;> omega

/-- Every date of year `y + 1` has a strictly larger ordinal than any date of
year `y`. -/
theorem toOrdinal_year_lt (y mT dT m d : Nat)
    (h1 : validDate y mT dT = true) (h2 : validDate (y + 1) m d = true) :
    toOrdinal y mT dT < toOrdinal (y + 1) m d := by
  have hy : 1 ≤ y := by
    simp only [validDate, Bool.and_eq_true, decide_eq_true_eq] at h1
    exact h1.1.1.1.1.1
  have hb1 := dayOfYear_bounds y mT dT h1
  have hb2 := dayOfYear_bounds (y + 1) m d h2
  have hs := daysBeforeYear_succ y hy
  simp only [toOrdinal]
  cases hL : isLeap y <;> simp [hL] at hs hb1 <;> omega

/-- At midnight the `timedelta` day count is the exact ordinal difference. -/
theorem tdDays_midnight (o : Nat) (t : PyDateTime) (h : t.usec = 0) :
    tdDays o t = (o : Int) - (nowOrd t : Int) := by
  rw [tdDays, h]
  have hU : ((microsPerDay : Nat) : Int) ≠ 0 := by
    simp [microsPerDay]
  simp only [Nat.cast_zero, sub_zero]
  exact Int.mul_fdiv_cancel _ hU

/-- At midnight the code's `bday < today` test is an ordinal comparison. -/
theorem bdayBeforeNow_midnight (o : Nat) (t : PyDateTime) (h : t.usec = 0) :
    bdayBeforeNow o t = decide (o < nowOrd t) := by
  rw [bdayBeforeNow, h]
  simp

/-- Claim C2 (amended): at a midnight `now`, `days_to_birthday` returns the
no-birthday signal (`ok none`, not an error) when no birthday is set;
otherwise, whenever the stored birthday parses and its month/day exists in
the current and the following year, it returns the non-negative day count to
the next occurrence — the in-year date when that is not strictly before
`now`, else the date advanced one year — and a birthday falling on today's
date yields 0. -/
theorem days_to_birthday_spec (r : Record) (t : PyDateTime)
    (husec : t.usec = 0) (hnow : validDate t.year t.month t.day = true) :
    (r.birthday = none → days_to_birthday r t = .ok none)
      ∧ (∀ bs d m y, r.birthday = some bs → parseDMY bs.data = some (d, m, y) →
          validDate y m d = true → validDate t.year m d = true →
          validDate (t.year + 1) m d = true →
          ∃ k : Int, days_to_birthday r t = .ok (some k) ∧ 0 ≤ k
            ∧ k = (if toOrdinal t.year m d < nowOrd t
                    then (toOrdinal (t.year + 1) m d : Int) - (nowOrd t : Int)
                    else (toOrdinal t.year m d : Int) - (nowOrd t : Int))
            ∧ (m = t.month → d = t.day → k = 0)) := by
  constructor
  · intro hb
    unfold days_to_birthday
    rw [hb]
  · intro bs d m y hb hp hv hvt hvt1
    unfold days_to_birthday next_bday_diff
    simp only [hb, hp]
    by_cases hlt : toOrdinal t.year m d < nowOrd t
    · have hbdT : bdayBeforeNow (toOrdinal t.year m d) t = true := by
        rw [bdayBeforeNow_midnight _ _ husec]
        simp [hlt]
      refine ⟨(toOrdinal (t.year + 1) m d : Int) - (nowOrd t : Int), ?_, ?_, ?_, ?_⟩
      · simp [hv, hvt, hvt1, hbdT, tdDays_midnight _ _ husec]
      · have hlt2 := toOrdinal_year_lt t.year t.month t.day m d hnow hvt1
        have : nowOrd t < toOrdinal (t.year + 1) m d := hlt2
        omega
      · rw [if_pos hlt]
      · intro hm hd
        subst hm
        subst hd
        exact absurd hlt (lt_irrefl _)
    · have hbdF : bdayBeforeNow (toOrdinal t.year m d) t = false := by
        rw [bdayBeforeNow_midnight _ _ husec]
        simp [hlt]
      refine ⟨(toOrdinal t.year m d : Int) - (nowOrd t : Int), ?_, ?_, ?_, ?_⟩
      · simp [hv, hvt, hbdF, tdDays_midnight _ _ husec]
      · omega
      · rw [if_neg hlt]
      · intro hm hd
        subst hm
        subst hd
        simp [nowOrd]

/-- Witness for C2 at a birthday two days ahead of a midnight `now`. -/
theorem days_to_birthday_spec_witness :
    ∃ k : Int, days_to_birthday ⟨"Bob", [], some "12.06.1990"⟩ ⟨2024, 6, 10, 0⟩ = .ok (some k)
        ∧ 0 ≤ k
        ∧ k = (if toOrdinal (PyDateTime.mk 2024 6 10 0).year 6 12 < nowOrd ⟨2024, 6, 10, 0⟩
                then (toOrdinal ((PyDateTime.mk 2024 6 10 0).year + 1) 6 12 : Int) - (nowOrd ⟨2024, 6, 10, 0⟩ : Int)
                else (toOrdinal (PyDateTime.mk 2024 6 10 0).year 6 12 : Int) - (nowOrd ⟨2024, 6, 10, 0⟩ : Int))
        ∧ (6 = (PyDateTime.mk 2024 6 10 0).month → 12 = (PyDateTime.mk 2024 6 10 0).day → k = 0) :=
  (days_to_birthday_spec ⟨"Bob", [], some "12.06.1990"⟩ ⟨2024, 6, 10, 0⟩ rfl (by decide)).2
    "12.06.1990" 12 6 1990 rfl (by decide) (by decide) (by decide) (by decide)

/-- Counterexample to C2 as stated: at noon of 2024-06-10 a birthday falling
on today's date does not yield 0 — the midnight birthday `datetime` compares
before `datetime.now()`, is pushed to next year, and the floor day count is
364. -/
theorem days_to_birthday_noon_counterexample :
    days_to_birthday ⟨"Bob", [], some "10.06.1990"⟩ ⟨2024, 6, 10, 43200000000⟩ = .ok (some 364)
      ∧ days_to_birthday ⟨"Bob", [], some "10.06.1990"⟩ ⟨2024, 6, 10, 43200000000⟩ ≠ .ok (some 0) := by
  have h1 : days_to_birthday ⟨"Bob", [], some "10.06.1990"⟩ ⟨2024, 6, 10, 43200000000⟩
      = .ok (some 364) := by
    rfl
  refine ⟨h1, ?_⟩
  intro h
  have h2 := h1.symm.trans h
  simp at h2

/-- The shared birthday computation returns a value whenever the stored
string parses and its month/day exists in both candidate years. -/
theorem next_bday_diff_ok (bs : String) (t : PyDateTime) (d m y : Nat)
    (hp : parseDMY bs.data = some (d, m, y)) (hv : validDate y m d = true)
    (hvt : validDate t.year m d = true) (hvt1 : validDate (t.year + 1) m d = true) :
    ∃ k : Int, next_bday_diff bs t = .ok k := by
  unfold next_bday_diff
  cases hbd : bdayBeforeNow (toOrdinal t.year m d) t
  · exact ⟨tdDays (toOrdinal t.year m d) t, by simp [hp, hv, hvt, hvt1, hbd]⟩
  · exact ⟨tdDays (toOrdinal (t.year + 1) m d) t, by simp [hp, hv, hvt, hvt1, hbd]⟩

/-- The upcoming-birthday loop collects exactly the records passing the
window filter, provided every stored birthday parses and exists in both
candidate years. -/
theorem upcomingGo_filter (t : PyDateTime) (w : Nat) :
    ∀ l : List Record,
      (∀ r ∈ l, ∀ bs, r.birthday = some bs →
        ∃ d m y, parseDMY bs.data = some (d, m, y) ∧ validDate y m d = true ∧
          validDate t.year m d = true ∧ validDate (t.year + 1) m d = true) →
      upcomingGo t w l = .ok (l.filter (inWindow t w)) := by
  intro l
  induction l with
  | nil => intro _; rfl
  | cons r rest ih =>
    intro h
    have hrest := fun r2 hr2 => h r2 (List.mem_cons_of_mem _ hr2)
    cases hbr : r.birthday with
    | none =>
      have hw : inWindow t w r = false := by
        unfold inWindow days_to_birthday
        simp [hbr]
      unfold upcomingGo
      simp only [hbr]
      rw [ih hrest]
      simp [List.filter_cons, hw]
    | some bs =>
      obtain ⟨d, m, y, hp, hv, hvt, hvt1⟩ := h r (List.mem_cons_self r rest) bs hbr
      obtain ⟨k, hk⟩ := next_bday_diff_ok bs t d m y hp hv hvt hvt1
      have hdtb : days_to_birthday r t = .ok (some k) := by
        unfold days_to_birthday
        simp [hbr, hk]
      have hw : inWindow t w r = (decide (0 ≤ k) && decide (k < (w : Int))) := by
        unfold inWindow
        rw [hdtb]
      unfold upcomingGo
      simp only [hbr, hk]
      rw [ih hrest]
      simp only [List.filter_cons, hw]
      by_cases hcond : 0 ≤ k ∧ k < (w : Int)
      · simp [hcond]
      · simp only [if_neg hcond]
        have hb1 : (decide (0 ≤ k) && decide (k < (w : Int))) = false := by
          rcases Decidable.not_and_iff_or_not.mp hcond with hc | hc <;> simp [hc]
        simp [hb1]

/-- Claim C1 (amended): at a midnight `now`, and when every stored birthday
parses and its month/day exists in the current and following year,
`upcoming_birthdays(w)` returns exactly the records that have a birthday
whose `days_to_birthday` day count satisfies `0 ≤ daysUntil < w`; the window
defaults to 7 days; and a record whose birthday falls on today's date is
included (0 days out) whenever the window is positive. -/
theorem upcoming_birthdays_spec (book : Book) (w : Nat) (t : PyDateTime)
    (husec : t.usec = 0)
    (h : ∀ r ∈ book.map Prod.snd, ∀ bs, r.birthday = some bs →
      ∃ d m y, parseDMY bs.data = some (d, m, y) ∧ validDate y m d = true ∧
        validDate t.year m d = true ∧ validDate (t.year + 1) m d = true) :
    upcoming_birthdays book w t = .ok ((book.map Prod.snd).filter (inWindow t w))
      ∧ upcoming_birthdays_default book t = upcoming_birthdays book 7 t
      ∧ (∀ r ∈ book.map Prod.snd, ∀ bs d m y, r.birthday = some bs →
          parseDMY bs.data = some (d, m, y) → m = t.month → d = t.day → 0 < w →
          r ∈ (book.map Prod.snd).filter (inWindow t w)) := by
  refine ⟨upcomingGo_filter t w (book.map Prod.snd) h, rfl, ?_⟩
  intro r hr bs d m y hb hp hm hd hw
  obtain ⟨d2, m2, y2, hp2, hv2, hvt2, hvt12⟩ := h r hr bs hb
  have heq : d = d2 ∧ m = m2 ∧ y = y2 := by
    have := hp.symm.trans hp2
    simp only [Option.some.injEq, Prod.mk.injEq] at this
    exact ⟨this.1, this.2.1, this.2.2⟩
  obtain ⟨hd2, hm2, hy2⟩ := heq
  subst hd2
  subst hm2
  subst hy2
  subst hm
  subst hd
  have hbdF : bdayBeforeNow (toOrdinal t.year t.month t.day) t = false := by
    rw [bdayBeforeNow_midnight _ _ husec]
    simp [nowOrd]
  have hk : next_bday_diff bs t = .ok 0 := by
    unfold next_bday_diff
    simp [hp, hv2, hvt2, hvt12, hbdF, tdDays_midnight _ _ husec, nowOrd]
  have hdtb : days_to_birthday r t = .ok (some 0) := by
    unfold days_to_birthday
    simp [hb, hk]
  have hwin : inWindow t w r = true := by
    unfold inWindow
    rw [hdtb]
    have hio : (0 : Int) < (w : Int) := by
      exact_mod_cast hw
    simp [hio]
  exact List.mem_filter.mpr ⟨hr, hwin⟩

/-- Witness for C1: a one-record book whose birthday is two days out of a
midnight 2024-06-10, window 7. -/
theorem upcoming_birthdays_spec_witness :
    upcoming_birthdays [("Bob", ⟨"Bob", [], some "12.06.1990"⟩)] 7 ⟨2024, 6, 10, 0⟩
      = .ok (([("Bob", (⟨"Bob", [], some "12.06.1990"⟩ : Record))].map Prod.snd).filter
          (inWindow ⟨2024, 6, 10, 0⟩ 7)) := by
  refine (upcoming_birthdays_spec [("Bob", ⟨"Bob", [], some "12.06.1990"⟩)] 7 ⟨2024, 6, 10, 0⟩ rfl ?_).1
  intro r hr bs hb
  simp only [List.map_cons, List.map_nil, List.mem_singleton] at hr
  subst hr
  simp only [Option.some.injEq] at hb
  subst hb
  exact ⟨12, 6, 1990, by decide, by decide, by decide, by decide⟩

/-- Counterexample to C1 as stated: at noon of 2024-06-10 the record whose
birthday string names today's date (day 10, month 6) is not returned for
window 7 — the code computes 364 days, not 0. -/
theorem upcoming_birthdays_noon_counterexample :
    upcoming_birthdays [("Bob", ⟨"Bob", [], some "10.06.1990"⟩)] 7 ⟨2024, 6, 10, 43200000000⟩
        = .ok []
      ∧ parseDMY "10.06.1990".data = some (10, 6, 1990) := by
  constructor
  · rfl
  · decide

/-- Unfolded meaning of the ASCII-digit test. -/
theorem asciiDigit_iff (c : Char) :
    asciiDigit c = true ↔ (48 ≤ c.toNat ∧ c.toNat ≤ 57) := by
  simp [asciiDigit]

/-- Unfolded meaning of the `[1-9]` class test. -/
theorem asciiOneNine_iff (c : Char) :
    asciiOneNine c = true ↔ (49 ≤ c.toNat ∧ c.toNat ≤ 57) := by
  simp [asciiOneNine]

/-- On ASCII digits, `int()`'s digit value is the code point offset from '0'. -/
theorem pyDigitVal_ascii (c : Char) (h1 : 48 ≤ c.toNat) (h2 : c.toNat ≤ 57) :
    pyDigitVal c = c.toNat - 48 := by
  simp [pyDigitVal, ndRanges, List.find?, h1, h2]

/-- Digit value of a singleton. -/
theorem pyIntOfDigits_one (c : Char) : pyIntOfDigits [c] = pyDigitVal c := by
  simp [pyIntOfDigits]

/-- Digit value of a two-character group. -/
theorem pyIntOfDigits_two (c1 c2 : Char) :
    pyIntOfDigits [c1, c2] = 10 * pyDigitVal c1 + pyDigitVal c2 := by
  simp [pyIntOfDigits]

/-- Digit value of a four-character group. -/
theorem pyIntOfDigits_four (c1 c2 c3 c4 : Char) :
    pyIntOfDigits [c1, c2, c3, c4]
      = 1000 * pyDigitVal c1 + 100 * pyDigitVal c2 + 10 * pyDigitVal c3 + pyDigitVal c4 := by
  simp [pyIntOfDigits]
  ring

/-- ASCII value of a singleton. -/
theorem intOfAscii_one (c : Char) : intOfAscii [c] = c.toNat - 48 := by
  simp [intOfAscii]

/-- ASCII value of a two-character group. -/
theorem intOfAscii_two (a b : Char) :
    intOfAscii [a, b] = 10 * (a.toNat - 48) + (b.toNat - 48) := by
  simp [intOfAscii]

/-- ASCII value of a four-character group. -/
theorem intOfAscii_four (a b c d : Char) :
    intOfAscii [a, b, c, d]
      = 1000 * (a.toNat - 48) + 100 * (b.toNat - 48) + 10 * (c.toNat - 48) + (d.toNat - 48) := by
  simp [intOfAscii]
  ring

/-- Second operands of the day-field alternation all reject a dot. -/
theorem day_cond_dot_false (a : Char) :
    ((a = '3' && (('.' : Char) = '0' || ('.' : Char) = '1'))
        || ((a = '1' || a = '2') && isPyDigit '.')
        || (a = '0' && asciiOneNine '.')) = false := by
  have h1 : (('.' : Char) = '0' || ('.' : Char) = '1') = false := by decide
  have h2 : isPyDigit '.' = false := by decide
  have h3 : asciiOneNine '.' = false := by decide
  rw [h1, h2, h3]
  simp

/-- Second operands of the month-field alternation all reject a dot. -/
theorem month_cond_dot_false (a : Char) :
    ((a = '1' && (('.' : Char) = '0' || ('.' : Char) = '1' || ('.' : Char) = '2'))
        || (a = '0' && asciiOneNine '.')) = false := by
  have h1 : (('.' : Char) = '0' || ('.' : Char) = '1' || ('.' : Char) = '2') = false := by decide
  have h3 : asciiOneNine '.' = false := by decide
  rw [h1, h3]
  simp

/-- A day group followed by a dot is consumed by the `%d` field, yielding its
numeric value. -/
theorem matchDay_group (ds tail : List Char) (hg : isDayGroup ds = true) :
    matchDay (ds ++ '.' :: tail) = some (intOfAscii ds, '.' :: tail) := by
  rcases ds with _ | ⟨a, _ | ⟨b, rest⟩⟩
  · simp [isDayGroup] at hg
  · simp only [isDayGroup, List.all_cons, List.all_nil, List.length_cons, Bool.and_eq_true,
      Bool.or_eq_true, decide_eq_true_eq, asciiDigit, Bool.and_true, and_true] at hg
    obtain ⟨⟨⟨hda, _⟩, hv1⟩, _⟩ := hg
    rw [intOfAscii_one] at hv1
    have h19 : asciiOneNine a = true := by
      rw [asciiOneNine_iff]
      omega
    simp only [List.cons_append, List.nil_append, matchDay]
    rw [if_neg (by rw [day_cond_dot_false a]; simp), if_pos h19]
    rw [pyIntOfDigits_one, intOfAscii_one, pyDigitVal_ascii a hda.1 hda.2]
  · simp only [isDayGroup, List.all_cons, List.all_nil, List.length_cons, Bool.and_eq_true,
      Bool.or_eq_true, decide_eq_true_eq, asciiDigit, Bool.and_true, and_true] at hg
    obtain ⟨⟨⟨⟨hda, hdb, _⟩, hlen⟩, hv1⟩, hv31⟩ := hg
    have hrest : rest = [] := by
      rcases hlen with hlen | hlen
      · exact absurd hlen (by omega)
      · exact List.eq_nil_of_length_eq_zero (by omega)
    subst hrest
    rw [intOfAscii_two] at hv1 hv31
    have hval : pyIntOfDigits [a, b] = intOfAscii [a, b] := by
      rw [pyIntOfDigits_two, intOfAscii_two,
        pyDigitVal_ascii a hda.1 hda.2, pyDigitVal_ascii b hdb.1 hdb.2]
    have ha4 : a.toNat = 48 ∨ a.toNat = 49 ∨ a.toNat = 50 ∨ a.toNat = 51 := by
      omega
    simp only [List.cons_append, List.nil_append, matchDay]
    rcases ha4 with ha | ha | ha | ha
    · have ha0 : a = '0' := char_eq_of_toNat (by rw [ha]; rfl)
      subst ha0
      have hb19 : asciiOneNine b = true := by
        rw [asciiOneNine_iff]
        omega
      rw [if_pos (by simp [hb19]), hval]
    · have ha1 : a = '1' := char_eq_of_toNat (by rw [ha]; rfl)
      subst ha1
      have hbpy : isPyDigit b = true := isPyDigit_of_asciiDigit b ((asciiDigit_iff b).mpr hdb)
      rw [if_pos (by simp [hbpy]), hval]
    · have ha2 : a = '2' := char_eq_of_toNat (by rw [ha]; rfl)
      subst ha2
      have hbpy : isPyDigit b = true := isPyDigit_of_asciiDigit b ((asciiDigit_iff b).mpr hdb)
      rw [if_pos (by simp [hbpy]), hval]
    · have ha3 : a = '3' := char_eq_of_toNat (by rw [ha]; rfl)
      subst ha3
      have hb01 : b = '0' ∨ b = '1' := by
        have hb : b.toNat = 48 ∨ b.toNat = 49 := by omega
        rcases hb with hb | hb
        · exact Or.inl (char_eq_of_toNat (by rw [hb]; rfl))
        · exact Or.inr (char_eq_of_toNat (by rw [hb]; rfl))
      rw [if_pos (by rcases hb01 with hb | hb <;> simp [hb]), hval]

/-- A month group followed by a dot is consumed by the `%m` field, yielding
its numeric value. -/
theorem matchMonth_group (ms tail : List Char) (hg : isMonthGroup ms = true) :
    matchMonth (ms ++ '.' :: tail) = some (intOfAscii ms, '.' :: tail) := by
  rcases ms with _ | ⟨a, _ | ⟨b, rest⟩⟩
  · simp [isMonthGroup] at hg
  · simp only [isMonthGroup, List.all_cons, List.all_nil, List.length_cons, Bool.and_eq_true,
      Bool.or_eq_true, decide_eq_true_eq, asciiDigit, Bool.and_true, and_true] at hg
    obtain ⟨⟨⟨hda, _⟩, hv1⟩, _⟩ := hg
    rw [intOfAscii_one] at hv1
    have h19 : asciiOneNine a = true := by
      rw [asciiOneNine_iff]
      omega
    simp only [List.cons_append, List.nil_append, matchMonth]
    rw [if_neg (by rw [month_cond_dot_false a]; simp), if_pos h19]
    rw [pyIntOfDigits_one, intOfAscii_one, pyDigitVal_ascii a hda.1 hda.2]
  · simp only [isMonthGroup, List.all_cons, List.all_nil, List.length_cons, Bool.and_eq_true,
      Bool.or_eq_true, decide_eq_true_eq, asciiDigit, Bool.and_true, and_true] at hg
    obtain ⟨⟨⟨⟨hda, hdb, _⟩, hlen⟩, hv1⟩, hv12⟩ := hg
    have hrest : rest = [] := by
      rcases hlen with hlen | hlen
      · exact absurd hlen (by omega)
      · exact List.eq_nil_of_length_eq_zero (by omega)
    subst hrest
    rw [intOfAscii_two] at hv1 hv12
    have hval : pyIntOfDigits [a, b] = intOfAscii [a, b] := by
      rw [pyIntOfDigits_two, intOfAscii_two,
        pyDigitVal_ascii a hda.1 hda.2, pyDigitVal_ascii b hdb.1 hdb.2]
    have ha2 : a.toNat = 48 ∨ a.toNat = 49 := by
      omega
    simp only [List.cons_append, List.nil_append, matchMonth]
    rcases ha2 with ha | ha
    · have ha0 : a = '0' := char_eq_of_toNat (by rw [ha]; rfl)
      subst ha0
      have hb19 : asciiOneNine b = true := by
        rw [asciiOneNine_iff]
        omega
      rw [if_pos (by simp [hb19]), hval]
    · have ha1 : a = '1' := char_eq_of_toNat (by rw [ha]; rfl)
      subst ha1
      have hb012 : b = '0' ∨ b = '1' ∨ b = '2' := by
        have hb : b.toNat = 48 ∨ b.toNat = 49 ∨ b.toNat = 50 := by omega
        rcases hb with hb | hb | hb
        · exact Or.inl (char_eq_of_toNat (by rw [hb]; rfl))
        · exact Or.inr (Or.inl (char_eq_of_toNat (by rw [hb]; rfl)))
        · exact Or.inr (Or.inr (char_eq_of_toNat (by rw [hb]; rfl)))
      rw [if_pos (by rcases hb012 with hb | hb | hb <;> simp [hb]), hval]

/-- A four-digit ASCII year group is consumed whole by the `%Y` field. -/
theorem matchYear_group (ys : List Char) (hg : isYearGroup ys = true) :
    matchYear ys = some (intOfAscii ys) := by
  rcases ys with _ | ⟨a, _ | ⟨b, _ | ⟨c, _ | ⟨d, _ | ⟨e, rest⟩⟩⟩⟩⟩ <;>
    simp only [isYearGroup, List.all_cons, List.all_nil, List.length_cons, List.length_nil,
      Bool.and_eq_true, decide_eq_true_eq, asciiDigit, Bool.and_true, and_true] at hg
  · exact absurd hg.2 (by omega)
  · exact absurd hg.2 (by omega)
  · exact absurd hg.2 (by omega)
  · exact absurd hg.2 (by omega)
  case cons.cons.cons.cons.nil =>
    obtain ⟨hda, hdb, hdc, hdd⟩ := hg
    have hpys : isPyDigit a = true ∧ isPyDigit b = true ∧ isPyDigit c = true ∧ isPyDigit d = true :=
      ⟨isPyDigit_of_asciiDigit a ((asciiDigit_iff a).mpr hda),
        isPyDigit_of_asciiDigit b ((asciiDigit_iff b).mpr hdb),
        isPyDigit_of_asciiDigit c ((asciiDigit_iff c).mpr hdc),
        isPyDigit_of_asciiDigit d ((asciiDigit_iff d).mpr hdd)⟩
    simp only [matchYear, hpys.1, hpys.2.1, hpys.2.2.1, hpys.2.2.2, Bool.and_self, if_pos]
    rw [pyIntOfDigits_four, intOfAscii_four,
      pyDigitVal_ascii a hda.1 hda.2, pyDigitVal_ascii b hdb.1 hdb.2,
      pyDigitVal_ascii c hdc.1 hdc.2, pyDigitVal_ascii d hdd.1 hdd.2]
  case cons.cons.cons.cons.cons =>
    exact absurd hg.2 (by omega)

/-- Inversion of the `%d` field match. -/
theorem matchDay_some_inv (l : List Char) (v : Nat) (r : List Char)
    (h : matchDay l = some (v, r)) :
    (∃ c1 c2, l = c1 :: c2 :: r
        ∧ ((c1 = '3' ∧ (c2 = '0' ∨ c2 = '1'))
            ∨ ((c1 = '1' ∨ c1 = '2') ∧ isPyDigit c2 = true)
            ∨ (c1 = '0' ∧ asciiOneNine c2 = true))
        ∧ v = pyIntOfDigits [c1, c2])
      ∨ (∃ c1, l = c1 :: r ∧ asciiOneNine c1 = true ∧ v = pyIntOfDigits [c1]) := by
  rcases l with _ | ⟨c1, _ | ⟨c2, rest⟩⟩
  · simp [matchDay] at h
  · simp only [matchDay] at h
    split at h
    case isTrue hc =>
      simp only [Option.some.injEq, Prod.mk.injEq] at h
      right
      exact ⟨c1, by rw [← h.2], hc, h.1.symm⟩
    case isFalse => simp at h
  · simp only [matchDay] at h
    split at h
    case isTrue hc =>
      simp only [Option.some.injEq, Prod.mk.injEq] at h
      left
      refine ⟨c1, c2, by rw [h.2], ?_, h.1.symm⟩
      simp only [Bool.or_eq_true, Bool.and_eq_true, decide_eq_true_eq] at hc
      tauto
    case isFalse =>
      split at h
      case isTrue hc1 =>
        simp only [Option.some.injEq, Prod.mk.injEq] at h
        right
        exact ⟨c1, by rw [h.2], hc1, h.1.symm⟩
      case isFalse => simp at h

/-- Inversion of the `%m` field match. -/
theorem matchMonth_some_inv (l : List Char) (v : Nat) (r : List Char)
    (h : matchMonth l = some (v, r)) :
    (∃ c1 c2, l = c1 :: c2 :: r
        ∧ ((c1 = '1' ∧ (c2 = '0' ∨ c2 = '1' ∨ c2 = '2'))
            ∨ (c1 = '0' ∧ asciiOneNine c2 = true))
        ∧ v = pyIntOfDigits [c1, c2])
      ∨ (∃ c1, l = c1 :: r ∧ asciiOneNine c1 = true ∧ v = pyIntOfDigits [c1]) := by
  rcases l with _ | ⟨c1, _ | ⟨c2, rest⟩⟩
  · simp [matchMonth] at h
  · simp only [matchMonth] at h
    split at h
    case isTrue hc =>
      simp only [Option.some.injEq, Prod.mk.injEq] at h
      right
      exact ⟨c1, by rw [← h.2], hc, h.1.symm⟩
    case isFalse => simp at h
  · simp only [matchMonth] at h
    split at h
    case isTrue hc =>
      simp only [Option.some.injEq, Prod.mk.injEq] at h
      left
      refine ⟨c1, c2, by rw [h.2], ?_, h.1.symm⟩
      simp only [Bool.or_eq_true, Bool.and_eq_true, decide_eq_true_eq] at hc
      tauto
    case isFalse =>
      split at h
      case isTrue hc1 =>
        simp only [Option.some.injEq, Prod.mk.injEq] at h
        right
        exact ⟨c1, by rw [h.2], hc1, h.1.symm⟩
      case isFalse => simp at h

/-- Inversion of the `%Y` field match. -/
theorem matchYear_some_inv (l : List Char) (v : Nat) (h : matchYear l = some v) :
    ∃ a b c d, l = [a, b, c, d]
      ∧ isPyDigit a = true ∧ isPyDigit b = true ∧ isPyDigit c = true ∧ isPyDigit d = true
      ∧ v = pyIntOfDigits [a, b, c, d] := by
  rcases l with _ | ⟨a, _ | ⟨b, _ | ⟨c, _ | ⟨d, _ | ⟨e, rest⟩⟩⟩⟩⟩
  · simp [matchYear] at h
  · simp [matchYear] at h
  · simp [matchYear] at h
  · simp [matchYear] at h
  · simp only [matchYear] at h
    split at h
    case isTrue hc =>
      simp only [Option.some.injEq] at h
      simp only [Bool.and_eq_true] at hc
      exact ⟨a, b, c, d, rfl, hc.1.1.1, hc.1.1.2, hc.1.2, hc.2, h.symm⟩
    case isFalse => simp at h
  · simp [matchYear] at h

/-- On ASCII digit pairs the two value functions agree. -/
theorem intOfAscii_eq_pyInt_two (c1 c2 : Char)
    (h1 : 48 ≤ c1.toNat) (h1b : c1.toNat ≤ 57) (h2 : 48 ≤ c2.toNat) (h2b : c2.toNat ≤ 57) :
    intOfAscii [c1, c2] = pyIntOfDigits [c1, c2] := by
  rw [intOfAscii_two, pyIntOfDigits_two, pyDigitVal_ascii c1 h1 h1b, pyDigitVal_ascii c2 h2 h2b]

/-- On an ASCII digit singleton the two value functions agree. -/
theorem intOfAscii_eq_pyInt_one (c : Char) (h1 : 48 ≤ c.toNat) (h2 : c.toNat ≤ 57) :
    intOfAscii [c] = pyIntOfDigits [c] := by
  rw [intOfAscii_one, pyIntOfDigits_one, pyDigitVal_ascii c h1 h2]

/-- On ASCII digit quadruples the two value functions agree. -/
theorem intOfAscii_eq_pyInt_four (a b c d : Char)
    (ha : 48 ≤ a.toNat) (hab : a.toNat ≤ 57) (hb : 48 ≤ b.toNat) (hbb : b.toNat ≤ 57)
    (hc : 48 ≤ c.toNat) (hcb : c.toNat ≤ 57) (hd : 48 ≤ d.toNat) (hdb : d.toNat ≤ 57) :
    intOfAscii [a, b, c, d] = pyIntOfDigits [a, b, c, d] := by
  rw [intOfAscii_four, pyIntOfDigits_four, pyDigitVal_ascii a ha hab, pyDigitVal_ascii b hb hbb,
    pyDigitVal_ascii c hc hcb, pyDigitVal_ascii d hd hdb]

/-- A two-character day match arises only from a day group with matching
value (on ASCII input). -/
theorem isDayGroup_two_of (c1 c2 : Char) (h2 : c2.toNat < 128)
    (hc : (c1 = '3' ∧ (c2 = '0' ∨ c2 = '1'))
        ∨ ((c1 = '1' ∨ c1 = '2') ∧ isPyDigit c2 = true)
        ∨ (c1 = '0' ∧ asciiOneNine c2 = true)) :
    isDayGroup [c1, c2] = true ∧ intOfAscii [c1, c2] = pyIntOfDigits [c1, c2] := by
  have hbb : 48 ≤ c2.toNat ∧ c2.toNat ≤ 57 := by
    rcases hc with ⟨h3, h01⟩ | ⟨h12, hpy⟩ | ⟨h0, h19⟩
    · rcases h01 with h | h <;> subst h <;> exact (by decide)
    · exact (asciiDigit_iff c2).mp ((isPyDigit_ascii_iff c2 h2).mp hpy)
    · have h := (asciiOneNine_iff c2).mp h19
      omega
  have haa : 48 ≤ c1.toNat ∧ c1.toNat ≤ 57 := by
    rcases hc with ⟨h3, _⟩ | ⟨h12, _⟩ | ⟨h0, _⟩
    · subst h3; exact (by decide)
    · rcases h12 with h | h <;> subst h <;> exact (by decide)
    · subst h0; exact (by decide)
  have hv : 1 ≤ 10 * (c1.toNat - 48) + (c2.toNat - 48)
      ∧ 10 * (c1.toNat - 48) + (c2.toNat - 48) ≤ 31 := by
    rcases hc with ⟨h3, h01⟩ | ⟨h12, hpy⟩ | ⟨h0, h19⟩
    · subst h3; rcases h01 with h | h <;> subst h <;> exact (by decide)
    · rcases h12 with h | h <;> subst h
      · have e : ('1' : Char).toNat = 49 := rfl
        omega
      · have e : ('2' : Char).toNat = 50 := rfl
        omega
    · subst h0
      have h := (asciiOneNine_iff c2).mp h19
      have e : ('0' : Char).toNat = 48 := rfl
      omega
  refine ⟨?_, intOfAscii_eq_pyInt_two c1 c2 haa.1 haa.2 hbb.1 hbb.2⟩
  simp [isDayGroup, asciiDigit, intOfAscii]
  omega

/-- A one-character day match arises only from a day group. -/
theorem isDayGroup_one_of (c : Char) (h19 : asciiOneNine c = true) :
    isDayGroup [c] = true ∧ intOfAscii [c] = pyIntOfDigits [c] := by
  have h := (asciiOneNine_iff c).mp h19
  refine ⟨?_, intOfAscii_eq_pyInt_one c (by omega) h.2⟩
  simp [isDayGroup, asciiDigit, intOfAscii]
  omega

/-- A two-character month match arises only from a month group. -/
theorem isMonthGroup_two_of (c1 c2 : Char)
    (hc : (c1 = '1' ∧ (c2 = '0' ∨ c2 = '1' ∨ c2 = '2'))
        ∨ (c1 = '0' ∧ asciiOneNine c2 = true)) :
    isMonthGroup [c1, c2] = true ∧ intOfAscii [c1, c2] = pyIntOfDigits [c1, c2] := by
  have hbb : 48 ≤ c2.toNat ∧ c2.toNat ≤ 57 := by
    rcases hc with ⟨h1, h012⟩ | ⟨h0, h19⟩
    · rcases h012 with h | h | h <;> subst h <;> exact (by decide)
    · have h := (asciiOneNine_iff c2).mp h19
      omega
  have haa : 48 ≤ c1.toNat ∧ c1.toNat ≤ 57 := by
    rcases hc with ⟨h1, _⟩ | ⟨h0, _⟩
    · subst h1; exact (by decide)
    · subst h0; exact (by decide)
  have hv : 1 ≤ 10 * (c1.toNat - 48) + (c2.toNat - 48)
      ∧ 10 * (c1.toNat - 48) + (c2.toNat - 48) ≤ 12 := by
    rcases hc with ⟨h1, h012⟩ | ⟨h0, h19⟩
    · subst h1; rcases h012 with h | h | h <;> subst h <;> exact (by decide)
    · subst h0
      have h := (asciiOneNine_iff c2).mp h19
      have e : ('0' : Char).toNat = 48 := rfl
      omega
  refine ⟨?_, intOfAscii_eq_pyInt_two c1 c2 haa.1 haa.2 hbb.1 hbb.2⟩
  simp [isMonthGroup, asciiDigit, intOfAscii]
  omega

/-- A one-character month match arises only from a month group. -/
theorem isMonthGroup_one_of (c : Char) (h19 : asciiOneNine c = true) :
    isMonthGroup [c] = true ∧ intOfAscii [c] = pyIntOfDigits [c] := by
  have h := (asciiOneNine_iff c).mp h19
  refine ⟨?_, intOfAscii_eq_pyInt_one c (by omega) h.2⟩
  simp [isMonthGroup, asciiDigit, intOfAscii]
  omega

/-- A year match arises only from a year group with matching value (on ASCII
input). -/
theorem isYearGroup_of (a b c d : Char)
    (h1 : a.toNat < 128) (h2 : b.toNat < 128) (h3 : c.toNat < 128) (h4 : d.toNat < 128)
    (hpa : isPyDigit a = true) (hpb : isPyDigit b = true)
    (hpc : isPyDigit c = true) (hpd : isPyDigit d = true) :
    isYearGroup [a, b, c, d] = true ∧ intOfAscii [a, b, c, d] = pyIntOfDigits [a, b, c, d] := by
  have ha := (asciiDigit_iff a).mp ((isPyDigit_ascii_iff a h1).mp hpa)
  have hb := (asciiDigit_iff b).mp ((isPyDigit_ascii_iff b h2).mp hpb)
  have hc := (asciiDigit_iff c).mp ((isPyDigit_ascii_iff c h3).mp hpc)
  have hd := (asciiDigit_iff d).mp ((isPyDigit_ascii_iff d h4).mp hpd)
  refine ⟨?_, intOfAscii_eq_pyInt_four a b c d ha.1 ha.2 hb.1 hb.2 hc.1 hc.2 hd.1 hd.2⟩
  simp [isYearGroup, asciiDigit]
  omega

/-- Assembled backward direction: a lenient decomposition is parsed by the
strptime field chain and yields the groups' values. -/
theorem parseDMY_of_groups (ds ms ys : List Char)
    (hd : isDayGroup ds = true) (hm : isMonthGroup ms = true) (hy : isYearGroup ys = true) :
    parseDMY (ds ++ '.' :: (ms ++ '.' :: ys))
      = some (intOfAscii ds, intOfAscii ms, intOfAscii ys) := by
  unfold parseDMY
  rw [matchDay_group ds (ms ++ '.' :: ys) hd]
  simp only
  rw [matchMonth_group ms ys hm]
  simp only
  rw [matchYear_group ys hy]

/-- Claim C3 (amended): on ASCII strings, `Birthday(raw)` succeeds exactly
when raw splits as day group, dot, month group, dot, four-digit year naming a
real calendar date — where the day and month groups are one- or two-digit
values in range (zero-padding is optional, contrary to the claim's strict
`DD.MM` reading); wrong separators and 2-digit years still fail. -/
theorem birthday_spec (s : String) (hascii : ∀ c ∈ s.data, c.toNat < 128) :
    mkBirthday s = .ok s ↔ lenientDMY s := by
  have hok : (mkBirthday s = .ok s) ↔ validate_birthday s = true := by
    rw [mkBirthday]
    by_cases hv : validate_birthday s = true <;> simp [hv]
  rw [hok]
  constructor
  · intro hval
    unfold validate_birthday at hval
    cases hp : parseDMY s.data with
    | none =>
      rw [hp] at hval
      exact absurd hval (by simp)
    | some t =>
      obtain ⟨dv, mv, yv⟩ := t
      rw [hp] at hval
      unfold parseDMY at hp
      cases hd : matchDay s.data with
      | none =>
        rw [hd] at hp
        simp at hp
      | some p =>
        obtain ⟨dval, r1⟩ := p
        rw [hd] at hp
        simp only [] at hp
        split at hp
        case h_2 => simp at hp
        case h_1 rX r2 =>
          cases hm2 : matchMonth r2 with
          | none =>
            rw [hm2] at hp
            simp at hp
          | some q =>
            obtain ⟨mval, r3⟩ := q
            rw [hm2] at hp
            simp only [] at hp
            split at hp
            case h_2 => simp at hp
            case h_1 rY r4 =>
              cases hy4 : matchYear r4 with
              | none =>
                rw [hy4] at hp
                simp at hp
              | some yval =>
                rw [hy4] at hp
                simp only [Option.some.injEq, Prod.mk.injEq] at hp
                obtain ⟨hpd, hpm, hpy⟩ := hp
                subst hpd
                subst hpm
                subst hpy
                obtain ⟨a, b, c, d, hys, hpa, hpb, hpc, hpd, hyv⟩ :=
                  matchYear_some_inv r4 yval hy4
                subst hys
                rcases matchDay_some_inv s.data dval ('.' :: r2) hd with
                  ⟨c1, c2, hsl, hbr, hvd⟩ | ⟨c1, hsl, h19, hvd⟩ <;>
                rcases matchMonth_some_inv r2 mval ('.' :: [a, b, c, d]) hm2 with
                  ⟨e1, e2, hsl2, hbr2, hvm⟩ | ⟨e1, hsl2, h19m, hvm⟩
                · -- day [c1, c2], month [e1, e2]
                  have hc2 : c2.toNat < 128 := hascii c2 (by rw [hsl]; simp)
                  have hgd := isDayGroup_two_of c1 c2 hc2 hbr
                  have hgm := isMonthGroup_two_of e1 e2 hbr2
                  have hgy := isYearGroup_of a b c d
                    (hascii a (by rw [hsl, hsl2]; simp))
                    (hascii b (by rw [hsl, hsl2]; simp))
                    (hascii c (by rw [hsl, hsl2]; simp))
                    (hascii d (by rw [hsl, hsl2]; simp))
                    hpa hpb hpc hpd
                  refine ⟨[c1, c2], [e1, e2], [a, b, c, d], ?_, hgd.1, hgm.1, hgy.1, ?_⟩
                  · rw [hsl, hsl2]
                    simp
                  · rw [hgd.2, hgm.2, hgy.2, ← hvd, ← hvm, ← hyv]
                    exact hval
                · -- day [c1, c2], month [e1]
                  have hc2 : c2.toNat < 128 := hascii c2 (by rw [hsl]; simp)
                  have hgd := isDayGroup_two_of c1 c2 hc2 hbr
                  have hgm := isMonthGroup_one_of e1 h19m
                  have hgy := isYearGroup_of a b c d
                    (hascii a (by rw [hsl, hsl2]; simp))
                    (hascii b (by rw [hsl, hsl2]; simp))
                    (hascii c (by rw [hsl, hsl2]; simp))
                    (hascii d (by rw [hsl, hsl2]; simp))
                    hpa hpb hpc hpd
                  refine ⟨[c1, c2], [e1], [a, b, c, d], ?_, hgd.1, hgm.1, hgy.1, ?_⟩
                  · rw [hsl, hsl2]
                    simp
                  · rw [hgd.2, hgm.2, hgy.2, ← hvd, ← hvm, ← hyv]
                    exact hval
                · -- day [c1], month [e1, e2]
                  have hgd := isDayGroup_one_of c1 h19
                  have hgm := isMonthGroup_two_of e1 e2 hbr2
                  have hgy := isYearGroup_of a b c d
                    (hascii a (by rw [hsl, hsl2]; simp))
                    (hascii b (by rw [hsl, hsl2]; simp))
                    (hascii c (by rw [hsl, hsl2]; simp))
                    (hascii d (by rw [hsl, hsl2]; simp))
                    hpa hpb hpc hpd
                  refine ⟨[c1], [e1, e2], [a, b, c, d], ?_, hgd.1, hgm.1, hgy.1, ?_⟩
                  · rw [hsl, hsl2]
                    simp
                  · rw [hgd.2, hgm.2, hgy.2, ← hvd, ← hvm, ← hyv]
                    exact hval
                · -- day [c1], month [e1]
                  have hgd := isDayGroup_one_of c1 h19
                  have hgm := isMonthGroup_one_of e1 h19m
                  have hgy := isYearGroup_of a b c d
                    (hascii a (by rw [hsl, hsl2]; simp))
                    (hascii b (by rw [hsl, hsl2]; simp))
                    (hascii c (by rw [hsl, hsl2]; simp))
                    (hascii d (by rw [hsl, hsl2]; simp))
                    hpa hpb hpc hpd
                  refine ⟨[c1], [e1], [a, b, c, d], ?_, hgd.1, hgm.1, hgy.1, ?_⟩
                  · rw [hsl, hsl2]
                    simp
                  · rw [hgd.2, hgm.2, hgy.2, ← hvd, ← hvm, ← hyv]
                    exact hval
  · intro hlen
    obtain ⟨ds, ms, ys, hsplit, hd, hm, hy, hvd⟩ := hlen
    unfold validate_birthday
    rw [hsplit, parseDMY_of_groups ds ms ys hd hm hy]
    exact hvd

/-- Witness for C3 at the unpadded string "5.6.1990". -/
theorem birthday_spec_witness :
    (∀ c ∈ "5.6.1990".data, c.toNat < 128)
      ∧ (mkBirthday "5.6.1990" = .ok "5.6.1990" ↔ lenientDMY "5.6.1990") :=
  ⟨by decide, birthday_spec "5.6.1990" (by decide)⟩

/-- Counterexample to C3 as stated: `Birthday("5.6.1990")` succeeds although
the string is not in strict zero-padded `DD.MM.YYYY` form, so acceptance is
not limited to the claimed strict format. -/
theorem birthday_claim_strict_counterexample :
    mkBirthday "5.6.1990" = .ok "5.6.1990" ∧ strictDMY "5.6.1990" = false :=
  ⟨rfl, by decide⟩

end Bott
